import Mathlib

/-!
Verification development for the insbu-frontend repository.

This file gives a shallow embedding, in Lean 4, of the client-side
data-fetching and authentication layer of the INSBU statistics portal
front end:

* the `storage` wrapper over `localStorage` (src/utils/helpers.js),
  together with an executable model of `JSON.stringify` / `JSON.parse`
  restricted to integer-valued numbers;
* the axios client of src/services/api.js: the request interceptor
  attaching bearer tokens, the response error interceptor, the
  `requestWithRetry` backoff loop and `getWithCache`;
* the `usePaginatedApi` pagination state machine and `useApi` hooks;
* the `AuthProvider` context of src/contexts/AuthContext.jsx:
  `logout`, `refreshToken`, the periodic-refresh effect and the 401
  response interceptor it installs;
* `adminService.createUser` client-side validation with
  `isValidEmail` (src/utils/helpers.js).

Stateful JavaScript is modelled by explicit state passing; fallible
calls return `Option` or an explicit outcome type; machine reality
(timers, the network) is abstracted into explicit parameters such as
clock values and transport oracles.
-/

namespace Insbu

/-! ## JSON values (the data stored by the storage wrapper)

JavaScript values that survive `JSON.stringify`/`JSON.parse`.  Numbers
are modelled as integers (the repository only ever stores integral
numbers: timestamps and ids). -/

inductive Json where
  | null : Json
  | bool (b : Bool) : Json
  | num (n : Int) : Json
  | str (s : String) : Json
  | arr (elems : List Json) : Json
  | obj (fields : List (String × Json)) : Json
deriving Repr

/-- Decimal digit character for `n < 10`. -/
def digitCharOf (n : Nat) : Char := Char.ofNat (48 + n)

/-- Decimal digits of a natural number, most significant first. -/
def natToDigits (n : Nat) : List Char :=
  if _h : n < 10 then [digitCharOf n]
  else natToDigits (n / 10) ++ [digitCharOf (n % 10)]
decreasing_by exact Nat.div_lt_self (by omega) (by omega)

/-- Decimal rendering of an integer, as `JSON.stringify` prints it. -/
def intToChars (n : Int) : List Char :=
  if n < 0 then '-' :: natToDigits n.natAbs else natToDigits n.natAbs

/-- Lower-case hexadecimal digit character for `n < 16`. -/
def hexCharOfNat (n : Nat) : Char :=
  if n < 10 then Char.ofNat (48 + n) else Char.ofNat (87 + n)

/-- Spelled-out keyword literals of the JSON grammar. -/
def nullChars : List Char := ['n', 'u', 'l', 'l']

/-- Characters of the `true` keyword. -/
def trueChars : List Char := ['t', 'r', 'u', 'e']

/-- Characters of the `false` keyword. -/
def falseChars : List Char := ['f', 'a', 'l', 's', 'e']

/-- Left brace character (written via its code point). -/
def lbraceChar : Char := Char.ofNat 123

/-- Right brace character (written via its code point). -/
def rbraceChar : Char := Char.ofNat 125

/-- Escaping of one character inside a JSON string literal, as
`JSON.stringify` does it: quote and backslash get a backslash escape,
control characters a `\u00XX` escape, everything else is verbatim. -/
def escChar (c : Char) : List Char :=
  if c = '\"' then ['\\', '\"']
  else if c = '\\' then ['\\', '\\']
  else if c.toNat < 32 then
    let hi := hexCharOfNat (c.toNat / 16)
    let lo := hexCharOfNat (c.toNat % 16)
    '\\' :: 'u' :: '0' :: '0' :: hi :: [lo]
  else [c]

/-- Escape every character of a string body. -/
def escAll : List Char → List Char
  | [] => []
  | c :: cs => escChar c ++ escAll cs

/-- A JSON string literal: quote, escaped body, quote. -/
def strLitChars (l : List Char) : List Char :=
  '\"' :: (escAll l ++ ['\"'])

mutual

/-- Characters printed for a JSON value (`JSON.stringify`, no spacing). -/
def jsonToChars : Json → List Char
  | .null => nullChars
  | .bool true => trueChars
  | .bool false => falseChars
  | .num n => intToChars n
  | .str s => strLitChars s.data
  | .arr xs => '[' :: (elemsToChars xs ++ [']'])
  | .obj fs => lbraceChar :: (fieldsToChars fs ++ [rbraceChar])

/-- Comma-separated rendering of array elements. -/
def elemsToChars : List Json → List Char
  | [] => []
  | [x] => jsonToChars x
  | x :: y :: t => jsonToChars x ++ ',' :: elemsToChars (y :: t)

/-- Comma-separated rendering of object fields (`"key":value`). -/
def fieldsToChars : List (String × Json) → List Char
  | [] => []
  | [(k, v)] => strLitChars k.data ++ ':' :: jsonToChars v
  | (k, v) :: y :: t =>
    strLitChars k.data ++ ':' :: jsonToChars v ++ ',' :: fieldsToChars (y :: t)

end

/-- The string produced by `JSON.stringify` on a value. -/
def jsonStringify (v : Json) : String := String.mk (jsonToChars v)

/-- Value of a hexadecimal digit character, if it is one. -/
def hexVal (c : Char) : Option Nat :=
  let n := c.toNat
  if 48 ≤ n && n ≤ 57 then some (n - 48)
  else if 97 ≤ n && n ≤ 102 then some (n - 87)
  else if 65 ≤ n && n ≤ 70 then some (n - 55)
  else none

/-- Parse the body of a JSON string literal up to the closing quote,
returning the decoded characters and the remaining input. -/
def pStrBody : List Char → Option (List Char × List Char)
  | [] => none
  | c :: rest =>
    if c = '\"' then some ([], rest)
    else if c = '\\' then
      match rest with
      | [] => none
      | d :: rest2 =>
        if d = '\"' then (pStrBody rest2).map fun p => ('\"' :: p.1, p.2)
        else if d = '\\' then (pStrBody rest2).map fun p => ('\\' :: p.1, p.2)
        else if d = 'u' then
          match rest2 with
          | h1 :: h2 :: h3 :: h4 :: rest3 =>
            match hexVal h1, hexVal h2, hexVal h3, hexVal h4 with
            | some a, some b, some cc, some e =>
              (pStrBody rest3).map fun p =>
                (Char.ofNat (a * 4096 + b * 256 + cc * 16 + e) :: p.1, p.2)
            | _, _, _, _ => none
          | _ => none
        else none
    else if c.toNat < 32 then none
    else (pStrBody rest).map fun p => (c :: p.1, p.2)

/-- Numeric value of a list of decimal digit characters. -/
def digitsVal (l : List Char) : Nat :=
  l.foldl (fun a c => a * 10 + (c.toNat - 48)) 0

/-- Parse an integer: optional minus sign then a nonempty digit run. -/
def pInt (l : List Char) : Option (Int × List Char) :=
  match l with
  | [] => none
  | c :: rest =>
    if c = '-' then
      let p := rest.span Char.isDigit
      if p.1.isEmpty then none else some (-(digitsVal p.1 : Int), p.2)
    else
      let p := (c :: rest).span Char.isDigit
      if p.1.isEmpty then none else some ((digitsVal p.1 : Int), p.2)

mutual

/-- Fueled recursive-descent parser for one JSON value; returns the
value and the unconsumed input. -/
def pVal : Nat → List Char → Option (Json × List Char)
  | 0, _ => none
  | _ + 1, [] => none
  | f + 1, c :: rest =>
    if c = 'n' then
      match rest with
      | 'u' :: 'l' :: 'l' :: r => some (.null, r)
      | _ => none
    else if c = 't' then
      match rest with
      | 'r' :: 'u' :: 'e' :: r => some (.bool true, r)
      | _ => none
    else if c = 'f' then
      match rest with
      | 'a' :: 'l' :: 's' :: 'e' :: r => some (.bool false, r)
      | _ => none
    else if c = '\"' then
      (pStrBody rest).map fun p => (.str (String.mk p.1), p.2)
    else if c = '[' then
      match rest with
      | [] => none
      | d :: r =>
        if d = ']' then some (.arr [], r)
        else (pElems f (d :: r)).map fun p => (.arr p.1, p.2)
    else if c = lbraceChar then
      match rest with
      | [] => none
      | d :: r =>
        if d = rbraceChar then some (.obj [], r)
        else (pFields f (d :: r)).map fun p => (.obj p.1, p.2)
    else if c.isDigit || c = '-' then
      (pInt (c :: rest)).map fun p => (.num p.1, p.2)
    else none

/-- Parse the elements of a nonempty array, consuming the closing
bracket. -/
def pElems : Nat → List Char → Option (List Json × List Char)
  | 0, _ => none
  | f + 1, l =>
    match pVal f l with
    | none => none
    | some (v, r) =>
      match r with
      | [] => none
      | d :: r2 =>
        if d = ',' then (pElems f r2).map fun p => (v :: p.1, p.2)
        else if d = ']' then some ([v], r2)
        else none

/-- Parse the fields of a nonempty object, consuming the closing
brace. -/
def pFields : Nat → List Char → Option (List (String × Json) × List Char)
  | 0, _ => none
  | f + 1, l =>
    match l with
    | '\"' :: r =>
      match pStrBody r with
      | none => none
      | some (k, r2) =>
        match r2 with
        | ':' :: r3 =>
          match pVal f r3 with
          | none => none
          | some (v, r4) =>
            match r4 with
            | [] => none
            | d :: r5 =>
              if d = ',' then (pFields f r5).map fun p => ((String.mk k, v) :: p.1, p.2)
              else if d = rbraceChar then some ([(String.mk k, v)], r5)
              else none
        | _ => none
    | _ => none

end

/-- Model of `JSON.parse` wrapped in try/catch: `none` is a thrown
`SyntaxError`.  The parse succeeds only if the whole input is one JSON
value. -/
def jsonParse (s : String) : Option Json :=
  match pVal (s.length + 1) s.data with
  | some (v, []) => some v
  | _ => none

mutual

/-- Fuel sufficient for `pVal` to parse the printed form of a value. -/
def needFuel : Json → Nat
  | .null => 1
  | .bool _ => 1
  | .num _ => 1
  | .str _ => 1
  | .arr xs => 1 + needFuelElems xs
  | .obj fs => 1 + needFuelFields fs

/-- Fuel sufficient for `pElems` on the printed element list. -/
def needFuelElems : List Json → Nat
  | [] => 1
  | [x] => 1 + needFuel x
  | x :: y :: t => 1 + max (needFuel x) (needFuelElems (y :: t))

/-- Fuel sufficient for `pFields` on the printed field list. -/
def needFuelFields : List (String × Json) → Nat
  | [] => 1
  | [(_, v)] => 1 + needFuel v
  | (_, v) :: y :: t => 1 + max (needFuel v) (needFuelFields (y :: t))

end

/-! ## The storage wrapper (src/utils/helpers.js, `storage`)

`localStorage` is a string-to-string map.  `storage.get` parses the
raw item and returns `null` (here `Json.null`) for a missing key, an
empty item, or an item that fails to parse; `storage.set` stores
`JSON.stringify(value)`; `storage.remove` deletes the key. -/

def LocalStore := String → Option String

/-- A `localStorage` with no entries. -/
def emptyStore : LocalStore := fun _ => none

/-- Raw `localStorage.setItem`. -/
def rawSetItem (st : LocalStore) (k v : String) : LocalStore :=
  fun q => if q = k then some v else st q

/-- Raw `localStorage.removeItem`. -/
def rawRemoveItem (st : LocalStore) (k : String) : LocalStore :=
  fun q => if q = k then none else st q

/-- Model of `storage.set(key, value)` (the write it performs). -/
def storageSet (st : LocalStore) (k : String) (v : Json) : LocalStore :=
  rawSetItem st k (jsonStringify v)

/-- Model of `storage.get(key)`: `item ? JSON.parse(item) : null`,
with a thrown parse error caught and turned into `null`. -/
def storageGet (st : LocalStore) (k : String) : Json :=
  match st k with
  | none => .null
  | some item => if item = "" then .null else (jsonParse item).getD .null

/-- Model of `storage.remove(key)`. -/
def storageRemove (st : LocalStore) (k : String) : LocalStore :=
  rawRemoveItem st k

/-! ## HTTP client configuration (src/utils/constants.js) -/

/-- `API_CONFIG.retryAttempts`. -/
def retryAttempts : Nat := 3

/-- `API_CONFIG.retryDelay` in milliseconds. -/
def retryDelay : Nat := 1000

/-- `STORAGE_KEYS.AUTH_TOKEN`. -/
def authTokenKey : String := "insbu_auth_token"

/-! ## Axios errors and `handleApiError` (src/utils/helpers.js)

A raw axios rejection carries the request config, the server response
when there is one, and the axios error code.  `handleApiError` folds
it into a plain `\x7b status, message, type \x7d` object; the api.js
response error interceptor always rejects with that processed object,
so it is what every `await api(config)` catch receives. -/

structure InterceptorConfig where
  url : String
  retryMark : Bool
deriving Repr, DecidableEq

structure ErrResponse where
  status : Nat
  dataMessage : Option String
deriving Repr, DecidableEq

/-- A raw axios error: the original request config, the response if
the server answered, whether a request was sent, the message, and the
axios error code (`ECONNABORTED` marks a timeout). -/
structure RawAxiosError where
  config : InterceptorConfig
  response : Option ErrResponse
  hasRequest : Bool
  message : String
  code : Option String
deriving Repr, DecidableEq

/-- The structured object `handleApiError` (src/utils/helpers.js)
builds: status, message and a type tag.  It has no `response` and no
`config` field. -/
structure ProcessedError where
  status : Nat
  message : String
  errType : String
deriving Repr, DecidableEq

/-- Model of `handleApiError(error)`. -/
def handleApiError (e : RawAxiosError) : ProcessedError :=
  match e.response with
  | some r => ⟨r.status, r.dataMessage.getD e.message, "api_error"⟩
  | none =>
    if e.hasRequest then ⟨0, "Network error. Please check your connection.", "network_error"⟩
    else ⟨0, e.message, "unknown_error"⟩

/-- Effects and rejection of the api.js response error interceptor:
on a 401 with `_retry` unset it marks `_retry`, clears the stored
token, deletes the default Authorization header and redirects to
`/login`; in every case it rejects with `handleApiError(error)`. -/
structure BaseInterceptorResult where
  config : InterceptorConfig
  tokenCleared : Bool
  redirectedToLogin : Bool
  rejected : ProcessedError
deriving Repr, DecidableEq

/-- Model of the api.js response error interceptor. -/
def baseResponseErrorInterceptor (e : RawAxiosError) : BaseInterceptorResult :=
  match e.response with
  | some r =>
    if r.status = 401 && !e.config.retryMark then
      { config := { e.config with retryMark := true },
        tokenCleared := true,
        redirectedToLogin := true,
        rejected := handleApiError e }
    else
      { config := e.config, tokenCleared := false, redirectedToLogin := false,
        rejected := handleApiError e }
  | none =>
    { config := e.config, tokenCleared := false, redirectedToLogin := false,
      rejected := handleApiError e }

/-- The value flowing into a later error handler: either a raw axios
error or the plain object a previous handler rejected with. -/
inductive ErrValue where
  | raw (e : RawAxiosError)
  | processed (p : ProcessedError)
deriving Repr, DecidableEq

/-- JavaScript `error.response?.status` on either shape: a processed
error has no `response` field, so the optional chain yields
`undefined` (`none`). -/
def errValueStatus : ErrValue → Option Nat
  | .raw e => e.response.map (·.status)
  | .processed _ => none

/-- JavaScript `error.config._retry` truthiness on either shape. -/
def errValueRetryMark : ErrValue → Bool
  | .raw e => e.config.retryMark
  | .processed _ => false

/-- JavaScript `error.response` on either shape: absent (`none`) on a
processed error. -/
def errValueResponse : ErrValue → Option ErrResponse
  | .raw e => e.response
  | .processed _ => none

/-- JavaScript `error.code` on either shape: absent (`none`) on a
processed error. -/
def errValueCode : ErrValue → Option String
  | .raw e => e.code
  | .processed _ => none

/-! ## The transport layer, seen from the retry loop

An attempt either yields a response or fails with a raw axios error.
A failed attempt travels through the response error interceptor, so
what `await api(config)` rejects with — and what the catch of
`requestWithRetry` receives — is the `handleApiError`-processed
object, not the raw error. -/

structure HttpResponse where
  status : Nat
  data : Json
deriving Repr

inductive HttpOutcome where
  | success (r : HttpResponse)
  | failure (e : RawAxiosError)
deriving Repr

/-- A request config as the retry loop sees it: the loop re-issues the
same config verbatim and never inspects it. -/
structure RequestConfig where
  method : String
  url : String
deriving Repr, DecidableEq

/-- The retry predicate of `requestWithRetry` (src/services/api.js),
reading `error.response`, `error.response.status` and `error.code` off
whatever value the catch received: fewer than `retryAttempts` retries
so far, the caught value has no response or a 5xx response, and its
code is not `ECONNABORTED`.  On the processed object the interceptor
rejects with, the last two conjuncts are vacuously true. -/
def shouldRetry (v : ErrValue) (retryCount : Nat) : Bool :=
  decide (retryCount < retryAttempts) &&
  (match errValueResponse v with
   | none => true
   | some r => decide (500 ≤ r.status)) &&
  !(decide (errValueCode v = some "ECONNABORTED"))

/-- Trace of one `requestWithRetry` call: the final outcome, how many
times the transport was invoked, and the backoff delay waited before
each re-issue. -/
structure RetryTrace where
  outcome : HttpOutcome
  attempts : Nat
  delays : List Nat
deriving Repr

/-- Model of `requestWithRetry(config, retryCount)`.  The transport
oracle gives the outcome of each attempt; the config is carried along
unchanged exactly as the source re-issues it.  A failed attempt is
caught as the processed object the interceptor chain rejected with
(`.processed (handleApiError e)`), and the retry predicate is
evaluated on that value; the trace records the raw failure that the
propagated processed error was built from. -/
def requestWithRetry (cfg : RequestConfig) (transport : Nat → HttpOutcome)
    (retryCount : Nat) : RetryTrace :=
  match transport retryCount with
  | .success r => ⟨.success r, 1, []⟩
  | .failure e =>
    let caught : ErrValue := .processed (handleApiError e)
    if h : shouldRetry caught retryCount then
      let rest := requestWithRetry cfg transport (retryCount + 1)
      ⟨rest.outcome, rest.attempts + 1, (retryDelay * 2 ^ retryCount) :: rest.delays⟩
    else ⟨.failure e, 1, []⟩
termination_by retryAttempts - retryCount
decreasing_by
  simp only [shouldRetry, errValueResponse, errValueCode, Bool.and_eq_true,
    decide_eq_true_eq] at h
  omega

/-! ## The GET cache (`api.getWithCache`, src/services/api.js)

Cache entries live in `localStorage` under
`api_cache_<url>_<JSON.stringify(params)>` and hold the response body
plus a write timestamp.  Params are modelled by their serialized
string. -/

structure CacheEntry where
  data : Json
  timestamp : Nat
deriving Repr

def CacheStore := String → Option CacheEntry

/-- Cache key construction of `getWithCache`. -/
def cacheKey (url paramsJson : String) : String :=
  "api_cache_" ++ url ++ "_" ++ paramsJson

/-- Default `cacheDuration`: five minutes in milliseconds. -/
def defaultCacheDuration : Nat := 5 * 60 * 1000

/-- What one `getWithCache` call produced. -/
inductive CacheCallResult where
  | hit (data : Json)
  | fresh (r : HttpResponse)
  | err (e : RawAxiosError)
deriving Repr

/-- Model of `api.getWithCache(url, config)`.

`useCache` is `config.useCache !== false`; `duration` is
`config.cacheDuration || defaultCacheDuration`; `nowCheck` and
`nowStore` are the two `Date.now()` readings (lookup time and store
time); the transport oracle drives the inner `requestWithRetry`.
Returns the call result, the updated cache store, and the number of
network attempts issued. -/
def getWithCache (store : CacheStore) (useCache : Bool) (url paramsJson : String)
    (duration nowCheck nowStore : Nat) (transport : Nat → HttpOutcome) :
    CacheCallResult × CacheStore × Nat :=
  let key := cacheKey url paramsJson
  let hit : Option Json :=
    if useCache then
      match store key with
      | some entry =>
        if nowCheck - entry.timestamp < duration then some entry.data else none
      | none => none
    else none
  match hit with
  | some d => (.hit d, store, 0)
  | none =>
    let t := requestWithRetry ⟨"GET", url⟩ transport 0
    match t.outcome with
    | .success r =>
      if useCache && decide (r.status = 200) then
        (.fresh r, fun q => if q = key then some ⟨r.data, nowStore⟩ else store q, t.attempts)
      else (.fresh r, store, t.attempts)
    | .failure e => (.err e, store, t.attempts)

/-! ## The request interceptor (src/services/api.js)

Reads the token from storage; a truthy token is attached as a bearer
Authorization header, otherwise the config is left untouched. -/

structure ReqHeaders where
  authorization : Option String
deriving Repr, DecidableEq

/-- Model of the request interceptor given the stored token value
(`storage.get(STORAGE_KEYS.AUTH_TOKEN)`, `none` for `null`). -/
def requestInterceptor (storedToken : Option String) (h : ReqHeaders) : ReqHeaders :=
  match storedToken with
  | some t => if t = "" then h else { h with authorization := some ("Bearer " ++ t) }
  | none => h

/-! ## The response error path (src/services/api.js and
src/contexts/AuthContext.jsx)

Two response interceptors are installed on the same axios instance:
the base one in api.js at module load, then the AuthContext one after
mount.  Axios runs error handlers in registration order, so the base
handler sees the raw axios error first and whatever it rejects with is
what the AuthContext handler receives. -/

/-- Result of the server answering a silent refresh call. -/
inductive RefreshOutcome where
  | ok (token : String) (userData : Option String)
  | err
deriving Repr, DecidableEq

/-- What the AuthContext 401 interceptor did: how many refresh calls
it attempted and whether it re-issued the original request. -/
structure AuthInterceptorResult where
  refreshRequests : Nat
  retriedOriginal : Bool
deriving Repr, DecidableEq

/-- Model of the AuthContext response error interceptor
(src/contexts/AuthContext.jsx, the effect installing
`api.interceptors.response.use`). -/
def authResponseErrorInterceptor (isAuth : Bool) (refreshOutcome : RefreshOutcome)
    (v : ErrValue) : AuthInterceptorResult :=
  if errValueStatus v = some 401 && !(errValueRetryMark v) && isAuth then
    match refreshOutcome with
    | .ok _ _ => ⟨1, true⟩
    | .err => ⟨1, false⟩
  else ⟨0, false⟩

/-- The composite behaviour of the client on a failed response. -/
structure ComposedErrorResult where
  tokenCleared : Bool
  redirectedToLogin : Bool
  refreshRequests : Nat
  retriedOriginal : Bool
deriving Repr, DecidableEq

/-- The full error path: the base interceptor runs first on the raw
error, and the AuthContext interceptor then receives the processed
object the base interceptor rejected with. -/
def clientErrorPath (isAuth : Bool) (refreshOutcome : RefreshOutcome)
    (e : RawAxiosError) : ComposedErrorResult :=
  let base := baseResponseErrorInterceptor e
  let auth := authResponseErrorInterceptor isAuth refreshOutcome (.processed base.rejected)
  ⟨base.tokenCleared, base.redirectedToLogin, auth.refreshRequests, auth.retriedOriginal⟩

/-! ## Pagination state (`usePaginatedApi`, src/hooks/useApi.js) -/

structure PagState where
  page : Nat
  totalPages : Nat
  totalItems : Nat
  searchTerm : String
  filters : List (String × String)
  sortBy : Option String
  sortOrder : String
deriving Repr, DecidableEq

/-- The hook state right after mount with the default
`initialPage = 1`. -/
def initialPagState : PagState :=
  ⟨1, 0, 0, "", [], none, "asc"⟩

/-- JavaScript object spread `{ ...prev, ...newFilters }` at the level
of key lookup: keys of `newFilters` win. -/
def mergeFilters (prev newF : List (String × String)) : List (String × String) :=
  prev.filter (fun p => (newF.lookup p.1).isNone) ++ newF

/-- Model of `nextPage`. -/
def nextPage (s : PagState) : PagState :=
  if s.page < s.totalPages then { s with page := s.page + 1 } else s

/-- Model of `prevPage`. -/
def prevPage (s : PagState) : PagState :=
  if 1 < s.page then { s with page := s.page - 1 } else s

/-- Model of `goToPage(pageNumber)`. -/
def goToPage (n : Nat) (s : PagState) : PagState :=
  if 1 ≤ n && n ≤ s.totalPages then { s with page := n } else s

/-- Firing of the debounced search callback: set the term and reset to
the first page. -/
def fireSearch (term : String) (s : PagState) : PagState :=
  { s with searchTerm := term, page := 1 }

/-- Model of `updateFilters(newFilters)`. -/
def updateFilters (newF : List (String × String)) (s : PagState) : PagState :=
  { s with filters := mergeFilters s.filters newF, page := 1 }

/-- Model of `updateSort(field, order)`. -/
def updateSort (field order : String) (s : PagState) : PagState :=
  { s with sortBy := some field, sortOrder := order, page := 1 }

/-- Model of `clearFilters()`. -/
def clearFilters (s : PagState) : PagState :=
  { s with filters := [], searchTerm := "", sortBy := none, sortOrder := "asc", page := 1 }

/-- A server page answer updating `totalPages`/`totalItems` (the
effect reading `response.last_page` and `response.total`). -/
def applyResponseMeta (lastPage total : Nat) (s : PagState) : PagState :=
  { s with totalPages := lastPage, totalItems := total }

/-- `hasNextPage` as returned by the hook. -/
def hasNextPage (s : PagState) : Bool := decide (s.page < s.totalPages)

/-- `hasPrevPage` as returned by the hook. -/
def hasPrevPage (s : PagState) : Bool := decide (1 < s.page)

/-- Every state transition the hook exposes (plus server metadata
updates). -/
inductive PagOp where
  | next
  | prev
  | goto (n : Nat)
  | search (term : String)
  | setFilters (f : List (String × String))
  | sort (field order : String)
  | clear
  | meta (lastPage total : Nat)
deriving Repr, DecidableEq

/-- Apply one operation to the hook state. -/
def applyPagOp : PagOp → PagState → PagState
  | .next, s => nextPage s
  | .prev, s => prevPage s
  | .goto n, s => goToPage n s
  | .search t, s => fireSearch t s
  | .setFilters f, s => updateFilters f s
  | .sort f o, s => updateSort f o s
  | .clear, s => clearFilters s
  | .meta lp t, s => applyResponseMeta lp t s

/-- Run a sequence of operations from a state. -/
def runPag (ops : List PagOp) (s : PagState) : PagState :=
  ops.foldl (fun st op => applyPagOp op st) s

/-! ## Auth context state (src/contexts/AuthContext.jsx) -/

structure AuthState where
  user : Option String
  loading : Bool
  refreshing : Bool
  storedToken : Option String
  apiAuthHeader : Option String
deriving Repr, DecidableEq

/-- `isAuthenticated = !!user`. -/
def isAuthenticated (s : AuthState) : Bool := s.user.isSome

/-- Model of `logout()`: attempts the server call only when a token is
stored (counted in the second component), and in the `finally` block
unconditionally removes the token, deletes the default Authorization
header, nulls the user and stops loading.  `serverOk` is the outcome
of the server logout call; the catch swallows it, so the cleanup does
not depend on it. -/
def logoutRun (s : AuthState) (serverOk : Bool) : AuthState × Nat :=
  let serverCalls := if s.storedToken.isSome then 1 else 0
  let _unusedOutcome := serverOk
  ({ s with storedToken := none, apiAuthHeader := none, user := none, loading := false },
   serverCalls)

/-- Model of `refreshToken()`: returns the boolean result, the new
state, and the number of refresh requests issued.  A call while
`refreshing` is already set returns `false` immediately with no
request; otherwise the refresh endpoint is called once, the token is
replaced on success, and a failure forces a logout. -/
def refreshTokenRun (s : AuthState) (net : RefreshOutcome) : Bool × AuthState × Nat :=
  if s.refreshing then (false, s, 0)
  else
    match net with
    | .ok t u =>
      let s1 := { s with refreshing := true, storedToken := some t,
                         apiAuthHeader := some ("Bearer " ++ t) }
      let s2 := match u with
        | some ud => { s1 with user := some ud }
        | none => s1
      (true, { s2 with refreshing := false }, 1)
    | .err =>
      let s1 := (logoutRun { s with refreshing := true } true).1
      (false, { s1 with refreshing := false }, 1)

/-- The period of the automatic refresh interval, in milliseconds. -/
def refreshIntervalMs : Nat := 15 * 60 * 1000

/-- Model of the interval effect: while authenticated an interval of
`refreshIntervalMs` is installed; on becoming unauthenticated the
cleanup clears it (`none`). -/
def scheduledRefreshPeriod (s : AuthState) : Option Nat :=
  if isAuthenticated s then some refreshIntervalMs else none

/-! ## adminService.createUser validation (src/services/api.js,
src/utils/helpers.js, src/utils/constants.js) -/

/-- Character class `[A-Z0-9._%+-]` under the `i` flag. -/
def isLocalChar (c : Char) : Bool :=
  c.isAlpha || c.isDigit || c = '.' || c = '_' || c = '%' || c = '+' || c = '-'

/-- Character class `[A-Z0-9.-]` under the `i` flag. -/
def isDomainChar (c : Char) : Bool :=
  c.isAlpha || c.isDigit || c = '.' || c = '-'

/-- Does `[A-Z0-9.-]+\.[A-Z]\x7b2,\x7d` match the whole domain part:
some dot splits it into a nonempty run of domain characters and a
final run of at least two letters. -/
def domainMatch (l : List Char) : Bool :=
  (List.range l.length).any fun i =>
    decide (l.get? i = some '.') &&
    !(l.take i).isEmpty && (l.take i).all isDomainChar &&
    decide (2 ≤ (l.drop (i + 1)).length) && (l.drop (i + 1)).all Char.isAlpha

/-- Model of `isValidEmail` (the anchored email regex of
src/utils/helpers.js): exactly one `@`, a nonempty local part over its
character class, and a matching domain part. -/
def isValidEmail (s : String) : Bool :=
  match s.data.splitOn '@' with
  | [localPart, domainPart] =>
    !localPart.isEmpty && localPart.all isLocalChar && domainMatch domainPart
  | _ => false

/-- `Object.values(USER_ROLES)`. -/
def userRoles : List String := ["admin", "editor", "user"]

/-- Input to `createUser`; `none` is an absent (`undefined`) field. -/
structure CreateUserInput where
  name : Option String
  email : Option String
  password : Option String
  role : Option String
  status : Option String
deriving Repr, DecidableEq

/-- The body `createUser` posts to `/admin/users` when validation
passes. -/
structure CreatePayload where
  name : String
  email : String
  password : String
  role : String
  status : String
deriving Repr, DecidableEq

/-- What `createUser` does before (or instead of) talking to the
network: throw a 422-shaped error carrying the errors map, or send the
request with the normalized payload. -/
inductive CreateUserAction where
  | reject (status : Nat) (errors : List (String × String))
  | send (p : CreatePayload)
deriving Repr, DecidableEq

/-- JavaScript falsiness of an optional string (`undefined` or empty). -/
def jsFalsyStr : Option String → Bool
  | none => true
  | some s => decide (s = "")

/-- Characters removed by JavaScript `String.prototype.trim`:
whitespace and line terminators. -/
def isJsWhitespace (c : Char) : Bool :=
  c.toNat = 9 || c.toNat = 10 || c.toNat = 11 || c.toNat = 12 || c.toNat = 13 ||
  c.toNat = 32 || c.toNat = 160 || c.toNat = 8232 || c.toNat = 8233 || c.toNat = 65279

/-- Model of JavaScript `s.trim()`. -/
def jsTrim (s : String) : String :=
  String.mk (((s.data.dropWhile isJsWhitespace).reverse.dropWhile isJsWhitespace).reverse)

/-- Model of JavaScript `s.toLowerCase()` (ASCII case folding; the
code applies it to email addresses). -/
def jsToLower (s : String) : String :=
  String.mk (s.data.map Char.toLower)

/-- The `errors.name` entry `createUser` computes. -/
def nameErrsOf (i : CreateUserInput) : List (String × String) :=
  if jsFalsyStr i.name || decide ((jsTrim (i.name.getD "")).length < 2) then
    [("name", "Name must be at least 2 characters long")]
  else []

/-- The `errors.email` entry `createUser` computes. -/
def emailErrsOf (i : CreateUserInput) : List (String × String) :=
  match i.email with
  | none => [("email", "Email is required")]
  | some e =>
    if e = "" then [("email", "Email is required")]
    else if !isValidEmail e then [("email", "Please enter a valid email address")]
    else []

/-- The `errors.password` entry `createUser` computes. -/
def passwordErrsOf (i : CreateUserInput) : List (String × String) :=
  if jsFalsyStr i.password || decide ((i.password.getD "").length < 8) then
    [("password", "Password must be at least 8 characters long")]
  else []

/-- The `errors.role` entry `createUser` computes (after the `user`
default fills an absent role). -/
def roleErrsOf (i : CreateUserInput) : List (String × String) :=
  if !(userRoles.contains (i.role.getD "user")) then [("role", "Invalid role selected")] else []

/-- The whole `errors` object, in the order the code fills it. -/
def allErrsOf (i : CreateUserInput) : List (String × String) :=
  nameErrsOf i ++ emailErrsOf i ++ passwordErrsOf i ++ roleErrsOf i

/-- Model of `adminService.createUser(userData)` up to the decision to
throw or to send. -/
def createUser (i : CreateUserInput) : CreateUserAction :=
  if (allErrsOf i).isEmpty then
    .send ⟨jsTrim (i.name.getD ""), jsTrim (jsToLower (i.email.getD "")),
           i.password.getD "", i.role.getD "user", i.status.getD "active"⟩
  else .reject 422 (allErrsOf i)

/-- Claim-side reading of the name check: absent, or trimmed shorter
than two characters. -/
def nameTooShort (i : CreateUserInput) : Prop :=
  match i.name with
  | none => True
  | some s => (jsTrim s).length < 2

/-- Claim-side reading of the email check: missing, or failing the
email pattern. -/
def emailMissingOrInvalid (i : CreateUserInput) : Prop :=
  match i.email with
  | none => True
  | some e => isValidEmail e = false

/-- Claim-side reading of the password check: missing, or shorter than
eight characters. -/
def passwordMissingOrShort (i : CreateUserInput) : Prop :=
  match i.password with
  | none => True
  | some p => p.length < 8

/-- Claim-side reading of the role check, after the `user` default. -/
def roleNotAllowed (i : CreateUserInput) : Prop :=
  ¬ (i.role.getD "user") ∈ userRoles

/-! ## Helper lemmas -/

theorem list_lookup_append (k : String) (l1 l2 : List (String × String)) :
    (l1 ++ l2).lookup k = ((l1.lookup k).orElse fun _ => l2.lookup k) := by
  induction l1 with
  | nil => simp [List.lookup]
  | cons a t ih =>
    obtain ⟨ka, va⟩ := a
    by_cases h : k = ka
    · subst h; simp [List.lookup]
    · simp only [List.cons_append, List.lookup]
      rw [beq_false_of_ne h]
      exact ih

theorem list_lookup_filter_keep (k : String) (l : List (String × String))
    (pred : String × String → Bool) (h : ∀ b, pred (k, b) = true) :
    (l.filter pred).lookup k = l.lookup k := by
  induction l with
  | nil => simp
  | cons a t ih =>
    obtain ⟨ka, va⟩ := a
    by_cases hk : k = ka
    · subst hk
      simp only [List.filter, h va, List.lookup, beq_self_eq_true]
    · simp only [List.filter]
      cases hp : pred (ka, va) with
      | true => simp only [List.lookup]; rw [beq_false_of_ne hk]; exact ih
      | false =>
        rw [ih]
        simp only [List.lookup]
        rw [beq_false_of_ne hk]

theorem list_lookup_filter_drop (k : String) (l : List (String × String))
    (pred : String × String → Bool) (h : ∀ b, pred (k, b) = false) :
    (l.filter pred).lookup k = none := by
  induction l with
  | nil => simp
  | cons a t ih =>
    obtain ⟨ka, va⟩ := a
    by_cases hk : k = ka
    · subst hk
      simp only [List.filter, h va]
      exact ih
    · simp only [List.filter]
      cases hp : pred (ka, va) with
      | true => simp only [List.lookup]; rw [beq_false_of_ne hk]; exact ih
      | false => exact ih

theorem mergeFilters_lookup (k : String) (prev newF : List (String × String)) :
    (mergeFilters prev newF).lookup k = ((newF.lookup k).orElse fun _ => prev.lookup k) := by
  unfold mergeFilters
  rw [list_lookup_append]
  cases hn : newF.lookup k with
  | none =>
    rw [list_lookup_filter_keep k prev _ (fun b => by simp [hn])]
    cases prev.lookup k <;> simp [Option.orElse, hn]
  | some v =>
    rw [list_lookup_filter_drop k prev _ (fun b => by simp [hn])]
    simp [Option.orElse, hn]

theorem shouldRetry_processed (p : ProcessedError) (k : Nat) :
    shouldRetry (.processed p) k = decide (k < retryAttempts) := by
  simp [shouldRetry, errValueResponse, errValueCode]

theorem requestWithRetry_step_retry (cfg : RequestConfig) (t : Nat → HttpOutcome)
    (k : Nat) (e : RawAxiosError) (hf : t k = .failure e)
    (hk : k < retryAttempts) :
    requestWithRetry cfg t k =
      ⟨(requestWithRetry cfg t (k + 1)).outcome,
       (requestWithRetry cfg t (k + 1)).attempts + 1,
       retryDelay * 2 ^ k :: (requestWithRetry cfg t (k + 1)).delays⟩ := by
  rw [requestWithRetry.eq_def, hf]
  simp [shouldRetry_processed, hk]

theorem requestWithRetry_step_stop (cfg : RequestConfig) (t : Nat → HttpOutcome)
    (k : Nat) (e : RawAxiosError) (hf : t k = .failure e)
    (hk : ¬ k < retryAttempts) :
    requestWithRetry cfg t k = ⟨.failure e, 1, []⟩ := by
  rw [requestWithRetry.eq_def, hf]
  simp [shouldRetry_processed, hk]

theorem requestWithRetry_attempts_pos (cfg : RequestConfig) (t : Nat → HttpOutcome)
    (k : Nat) : 1 ≤ (requestWithRetry cfg t k).attempts := by
  rw [requestWithRetry.eq_def]
  cases t k with
  | success r => simp
  | failure e =>
    by_cases hk : shouldRetry (.processed (handleApiError e)) k = true <;> simp [hk]

theorem applyPagOp_page_pos (op : PagOp) (s : PagState) (h : 1 ≤ s.page) :
    1 ≤ (applyPagOp op s).page := by
  cases op <;>
    simp only [applyPagOp, nextPage, prevPage, goToPage, fireSearch, updateFilters,
      updateSort, clearFilters, applyResponseMeta] <;>
    (try split) <;> simp_all <;> omega

theorem runPag_page_pos (ops : List PagOp) (s : PagState) (h : 1 ≤ s.page) :
    1 ≤ (runPag ops s).page := by
  induction ops generalizing s with
  | nil => exact h
  | cons op t ih => exact ih _ (applyPagOp_page_pos op s h)

/-! ## Claim theorems -/

/-- C4 counterexample: an empty string stored under the token key is a
stored token, but the request interceptor leaves the Authorization
header unset instead of attaching `Bearer ` (JavaScript truthiness
rejects the empty string). -/
theorem c4_counterexample :
    (requestInterceptor (some "") { authorization := none }).authorization = none ∧
    (none : Option String) ≠ some ("Bearer " ++ "") := by
  constructor
  · rfl
  · decide

/-- C4 (amended): for every outgoing request, if a nonempty token is
stored under `insbu_auth_token` then the request interceptor sets the
Authorization header to `Bearer ` followed by the token, and when no
token is stored it leaves the request headers unchanged (so an unset
Authorization header stays unset). -/
theorem c4_bearer_token_attached (t : String) (h : ReqHeaders) (ht : t ≠ "") :
    (requestInterceptor (some t) h).authorization = some ("Bearer " ++ t) ∧
    requestInterceptor none h = h := by
  refine ⟨?_, rfl⟩
  simp [requestInterceptor, ht]

/-- C4 witness: the amended theorem applied at token `tok`. -/
theorem c4_witness :
    (requestInterceptor (some "tok") { authorization := none }).authorization =
      some ("Bearer " ++ "tok") ∧
    requestInterceptor none { authorization := none } = { authorization := none } :=
  c4_bearer_token_attached "tok" { authorization := none } (by decide)

/-- C9: after `logout()` the token under `insbu_auth_token` is
removed, the default Authorization header is deleted, the user is null
(so `isAuthenticated` is false) and `loading` is false, for every
prior state and regardless of the server logout outcome. -/
theorem c9_logout_always_clears (s : AuthState) (serverOk : Bool) :
    (logoutRun s serverOk).1.storedToken = none ∧
    (logoutRun s serverOk).1.apiAuthHeader = none ∧
    (logoutRun s serverOk).1.user = none ∧
    (logoutRun s serverOk).1.loading = false ∧
    isAuthenticated (logoutRun s serverOk).1 = false := by
  simp [logoutRun, isAuthenticated]

/-- C7: while authenticated the context schedules an automatic token
refresh every fifteen minutes and cancels it when unauthenticated; a
`refreshToken` call while one is in flight returns false and issues no
request; otherwise a successful refresh issues one request and
replaces the stored token and default header with the new one. -/
theorem c7_token_refresh_schedule (s : AuthState) (net : RefreshOutcome) :
    (scheduledRefreshPeriod s = some (15 * 60 * 1000) ↔ isAuthenticated s = true) ∧
    (scheduledRefreshPeriod s = none ↔ isAuthenticated s = false) ∧
    (s.refreshing = true → refreshTokenRun s net = (false, s, 0)) ∧
    (∀ t u, s.refreshing = false →
      refreshTokenRun s (.ok t u) =
        (true,
         { s with refreshing := false, storedToken := some t,
                  apiAuthHeader := some ("Bearer " ++ t),
                  user := match u with | some ud => some ud | none => s.user },
         1)) := by
  refine ⟨?_, ?_, ?_, ?_⟩
  · cases h : isAuthenticated s <;> simp [scheduledRefreshPeriod, h, refreshIntervalMs]
  · cases h : isAuthenticated s <;> simp [scheduledRefreshPeriod, h, refreshIntervalMs]
  · intro h; simp [refreshTokenRun, h]
  · intro t u h
    cases u <;> simp [refreshTokenRun, h]

/-- C7 witness: the schedule facts and both refresh behaviours at
concrete states. -/
theorem c7_witness :
    refreshTokenRun ⟨some "alice", false, true, some "tk", some "Bearer tk"⟩ .err =
      (false, ⟨some "alice", false, true, some "tk", some "Bearer tk"⟩, 0) ∧
    refreshTokenRun ⟨some "alice", false, false, some "old", none⟩ (.ok "new" none) =
      (true, ⟨some "alice", false, false, some "new", some ("Bearer " ++ "new")⟩, 1) := by
  constructor
  · exact (c7_token_refresh_schedule _ .err).2.2.1 rfl
  · have h := (c7_token_refresh_schedule ⟨some "alice", false, false, some "old", none⟩
      (.ok "new" none)).2.2.2 "new" none rfl
    simpa using h

/-- C5: in `usePaginatedApi` the page starts at 1 and stays at least 1
under every exposed operation; `nextPage` increments only below
`totalPages`, `prevPage` decrements only above 1, `goToPage` moves
only into `[1, totalPages]`, and `hasNextPage`/`hasPrevPage` hold
exactly when `page < totalPages` and `page > 1`. -/
theorem c5_pagination_bounds :
    (∀ ops : List PagOp, 1 ≤ (runPag ops initialPagState).page) ∧
    (∀ s : PagState, (nextPage s).page = if s.page < s.totalPages then s.page + 1 else s.page) ∧
    (∀ s : PagState, (prevPage s).page = if 1 < s.page then s.page - 1 else s.page) ∧
    (∀ (n : Nat) (s : PagState),
      (goToPage n s).page = if 1 ≤ n ∧ n ≤ s.totalPages then n else s.page) ∧
    (∀ s : PagState, hasNextPage s = true ↔ s.page < s.totalPages) ∧
    (∀ s : PagState, hasPrevPage s = true ↔ 1 < s.page) := by
  refine ⟨?_, ?_, ?_, ?_, ?_, ?_⟩
  · intro ops; exact runPag_page_pos ops initialPagState (by simp [initialPagState])
  · intro s; by_cases h : s.page < s.totalPages <;> simp [nextPage, h]
  · intro s; by_cases h : 1 < s.page <;> simp [prevPage, h]
  · intro n s
    by_cases h1 : 1 ≤ n <;> by_cases h2 : n ≤ s.totalPages <;>
      simp [goToPage, h1, h2]
  · intro s; simp [hasNextPage]
  · intro s; simp [hasPrevPage]

/-- C6: the debounced search, `updateFilters`, `updateSort` and
`clearFilters` all reset the page to 1; `updateFilters` merges the new
filters over the existing ones (new keys win); `clearFilters` empties
the filters, clears the search term and restores `sortBy = null`,
`sortOrder = asc`. -/
theorem c6_query_reset (s : PagState) (t : String) (f : List (String × String))
    (fld ord : String) :
    (fireSearch t s).page = 1 ∧ (fireSearch t s).searchTerm = t ∧
    (updateFilters f s).page = 1 ∧
    (updateSort fld ord s).page = 1 ∧
    (clearFilters s).page = 1 ∧
    (∀ k, ((updateFilters f s).filters.lookup k) =
      ((f.lookup k).orElse fun _ => s.filters.lookup k)) ∧
    (clearFilters s).filters = [] ∧
    (clearFilters s).searchTerm = "" ∧
    (clearFilters s).sortBy = none ∧
    (clearFilters s).sortOrder = "asc" := by
  refine ⟨rfl, rfl, rfl, rfl, rfl, ?_, rfl, rfl, rfl, rfl⟩
  intro k
  exact mergeFilters_lookup k s.filters f

/-- C1: the code does not perform the refresh-and-retry the claim
describes.  For any request failing with status 401 while
authenticated and not yet marked `_retry`, the composed interceptor
chain marks the request, clears the stored token, redirects to
`/login`, and attempts zero refresh calls and zero re-issues — the
api.js interceptor runs first and rejects a processed error object
without a `response` field, so the AuthContext 401 handler never
fires, whatever the refresh endpoint would have answered. -/
theorem c1_401_without_refresh (e : RawAxiosError) (r : ErrResponse) (ro : RefreshOutcome)
    (hr : e.response = some r) (h401 : r.status = 401)
    (hmark : e.config.retryMark = false) :
    clientErrorPath true ro e =
      { tokenCleared := true, redirectedToLogin := true,
        refreshRequests := 0, retriedOriginal := false } := by
  simp [clientErrorPath, baseResponseErrorInterceptor, hr, h401, hmark,
    authResponseErrorInterceptor, errValueStatus, errValueRetryMark, handleApiError]

/-- C1 witness: the divergence evaluated at a concrete 401 failure of
`GET /auth/user` in an authenticated session. -/
theorem c1_witness :
    clientErrorPath true .err
      ⟨⟨"/auth/user", false⟩, some ⟨401, none⟩, true,
       "Request failed with status code 401", none⟩ =
      { tokenCleared := true, redirectedToLogin := true,
        refreshRequests := 0, retriedOriginal := false } :=
  c1_401_without_refresh _ ⟨401, none⟩ .err rfl rfl rfl

/-- C2: the code does not implement the retry policy the claim
states.  `requestWithRetry` catches what `await api(config)` rejects
with, and the response error interceptor always rejects the
`handleApiError`-processed object, which has no `response` and no
`code` field; so the status and code tests of `shouldRetry` are
vacuously true, the predicate collapses to `retryCount < 3`, and every
failure — 4xx responses and ECONNABORTED timeouts included, on any
method — is re-issued after `retryDelay * 2 ^ retryCount` milliseconds
until three retries have been spent, and only then propagated. -/
theorem c2_all_failures_retried (cfg : RequestConfig) (t : Nat → HttpOutcome) (k : Nat)
    (e : RawAxiosError) (hf : t k = .failure e) :
    shouldRetry (.processed (handleApiError e)) k = decide (k < retryAttempts) ∧
    (k < retryAttempts →
      requestWithRetry cfg t k =
        ⟨(requestWithRetry cfg t (k + 1)).outcome,
         (requestWithRetry cfg t (k + 1)).attempts + 1,
         retryDelay * 2 ^ k :: (requestWithRetry cfg t (k + 1)).delays⟩) ∧
    (¬ k < retryAttempts → requestWithRetry cfg t k = ⟨.failure e, 1, []⟩) ∧
    ((∀ n, t n = .failure e) →
      requestWithRetry cfg t 0 = ⟨.failure e, 4, [1000, 2000, 4000]⟩) := by
  refine ⟨shouldRetry_processed (handleApiError e) k,
    fun hk => requestWithRetry_step_retry cfg t k e hf hk,
    fun hk => requestWithRetry_step_stop cfg t k e hf hk,
    fun hall => ?_⟩
  have h3 := requestWithRetry_step_stop cfg t 3 e (hall 3) (by decide)
  have h2 := requestWithRetry_step_retry cfg t 2 e (hall 2) (by decide)
  have h1 := requestWithRetry_step_retry cfg t 1 e (hall 1) (by decide)
  have h0 := requestWithRetry_step_retry cfg t 0 e (hall 0) (by decide)
  rw [h0, h1, h2, h3]
  simp [retryDelay]

/-- C2 witness: the divergence evaluated at the claim's no-retry
cases — a persistent 404 response and a persistent ECONNABORTED
timeout are each retried three times (four attempts, backoff 1000,
2000, 4000 ms) instead of being propagated without retry. -/
theorem c2_witness :
    requestWithRetry ⟨"GET", "/news/999"⟩
      (fun _ => .failure ⟨⟨"/news/999", false⟩, some ⟨404, none⟩, true,
        "Request failed with status code 404", none⟩) 0 =
      ⟨.failure ⟨⟨"/news/999", false⟩, some ⟨404, none⟩, true,
        "Request failed with status code 404", none⟩, 4, [1000, 2000, 4000]⟩ ∧
    requestWithRetry ⟨"GET", "/stats"⟩
      (fun _ => .failure ⟨⟨"/stats", false⟩, none, true,
        "timeout of 30000ms exceeded", some "ECONNABORTED"⟩) 0 =
      ⟨.failure ⟨⟨"/stats", false⟩, none, true,
        "timeout of 30000ms exceeded", some "ECONNABORTED"⟩, 4, [1000, 2000, 4000]⟩ :=
  ⟨(c2_all_failures_retried ⟨"GET", "/news/999"⟩ _ 0 _ rfl).2.2.2 (fun _ => rfl),
   (c2_all_failures_retried ⟨"GET", "/stats"⟩ _ 0 _ rfl).2.2.2 (fun _ => rfl)⟩

/-- C3: with caching enabled, `getWithCache` answers from the cache
with no network attempt exactly for a stored entry younger than the
duration; otherwise it performs the network request (at least one
attempt), stores the body with a fresh timestamp only on status 200,
and returns the response as not-from-cache; one URL with equal
serialized params shares one key and differing params give different
keys; the default duration is five minutes. -/
theorem c3_cache_behavior (store : CacheStore) (url params : String)
    (dur nc ns : Nat) (t : Nat → HttpOutcome) :
    (∀ entry, store (cacheKey url params) = some entry → nc - entry.timestamp < dur →
      getWithCache store true url params dur nc ns t = (.hit entry.data, store, 0)) ∧
    ((∀ entry, store (cacheKey url params) = some entry → ¬ nc - entry.timestamp < dur) →
      (∀ r, (requestWithRetry ⟨"GET", url⟩ t 0).outcome = .success r →
        (r.status = 200 →
          getWithCache store true url params dur nc ns t =
            (.fresh r,
             fun q => if q = cacheKey url params then some ⟨r.data, ns⟩ else store q,
             (requestWithRetry ⟨"GET", url⟩ t 0).attempts)) ∧
        (r.status ≠ 200 →
          getWithCache store true url params dur nc ns t =
            (.fresh r, store, (requestWithRetry ⟨"GET", url⟩ t 0).attempts))) ∧
      (∀ e, (requestWithRetry ⟨"GET", url⟩ t 0).outcome = .failure e →
        getWithCache store true url params dur nc ns t =
          (.err e, store, (requestWithRetry ⟨"GET", url⟩ t 0).attempts)) ∧
      1 ≤ (requestWithRetry ⟨"GET", url⟩ t 0).attempts) ∧
    (∀ p1 p2 : String, cacheKey url p1 = cacheKey url p2 ↔ p1 = p2) ∧
    defaultCacheDuration = 5 * 60 * 1000 := by
  refine ⟨?_, ?_, ?_, rfl⟩
  · intro entry hentry hdur
    simp [getWithCache, hentry, hdur]
  · intro hmiss
    have hhit :
        (match store (cacheKey url params) with
          | some entry =>
            if nc - entry.timestamp < dur then some entry.data else none
          | none => none) = (none : Option Json) := by
      cases hk : store (cacheKey url params) with
      | none => simp
      | some entry => simp [hmiss entry hk]
    refine ⟨?_, ?_, requestWithRetry_attempts_pos _ t 0⟩
    · intro r hout
      constructor
      · intro h200
        simp only [getWithCache]
        rw [hhit, hout]
        simp [h200]
      · intro hne
        simp only [getWithCache]
        rw [hhit, hout]
        simp [hne]
    · intro e hout
      simp only [getWithCache]
      rw [hhit, hout]
      simp
  · intro p1 p2
    constructor
    · intro h
      have hd := congrArg String.data h
      simp only [cacheKey, String.data_append, List.append_assoc,
        List.append_right_inj] at hd
      exact String.ext hd
    · intro h; rw [h]

/-- C3 witness: a fresh entry is served from the cache without a
request, and on a cold cache a 200 response is stored under the same
key with the store timestamp. -/
theorem c3_witness :
    getWithCache
      (fun q => if q = cacheKey "/news" "x" then some ⟨Json.str "cached", 100⟩ else none)
      true "/news" "x" 300000 150 151 (fun _ => .success ⟨200, Json.str "fresh"⟩) =
      (.hit (Json.str "cached"),
       fun q => if q = cacheKey "/news" "x" then some ⟨Json.str "cached", 100⟩ else none,
       0) ∧
    getWithCache (fun _ => none) true "/news" "x" 300000 150 151
      (fun _ => .success ⟨200, Json.str "fresh"⟩) =
      (.fresh ⟨200, Json.str "fresh"⟩,
       fun q => if q = cacheKey "/news" "x" then some ⟨Json.str "fresh", 151⟩ else none,
       (requestWithRetry ⟨"GET", "/news"⟩ (fun _ => .success ⟨200, Json.str "fresh"⟩) 0).attempts) := by
  constructor
  · exact (c3_cache_behavior _ "/news" "x" 300000 150 151 _).1 ⟨Json.str "cached", 100⟩
      (by simp) (by omega)
  · have h := (((c3_cache_behavior (fun _ => none) "/news" "x" 300000 150 151
      (fun _ => .success ⟨200, Json.str "fresh"⟩)).2.1
      (by intro entry hentry; cases hentry)).1
      ⟨200, Json.str "fresh"⟩ (by rw [requestWithRetry.eq_def])).1 rfl
    simpa using h

theorem nameErrsOf_nil_iff (i : CreateUserInput) :
    nameErrsOf i = [] ↔ ¬ nameTooShort i := by
  cases hn : i.name with
  | none => simp [nameErrsOf, jsFalsyStr, nameTooShort, hn]
  | some s =>
    by_cases hs : s = ""
    · subst hs
      simp [nameErrsOf, jsFalsyStr, nameTooShort, hn]
      decide
    · simp [nameErrsOf, jsFalsyStr, nameTooShort, hn, hs]

theorem emailErrsOf_nil_iff (i : CreateUserInput) :
    emailErrsOf i = [] ↔ ¬ emailMissingOrInvalid i := by
  cases hn : i.email with
  | none => simp [emailErrsOf, emailMissingOrInvalid, hn]
  | some e =>
    by_cases hs : e = ""
    · subst hs
      simp [emailErrsOf, emailMissingOrInvalid, hn]
      decide
    · by_cases hv : isValidEmail e <;>
        simp [emailErrsOf, emailMissingOrInvalid, hn, hs, hv]

theorem passwordErrsOf_nil_iff (i : CreateUserInput) :
    passwordErrsOf i = [] ↔ ¬ passwordMissingOrShort i := by
  cases hn : i.password with
  | none => simp [passwordErrsOf, jsFalsyStr, passwordMissingOrShort, hn]
  | some p =>
    by_cases hs : p = ""
    · subst hs
      simp [passwordErrsOf, jsFalsyStr, passwordMissingOrShort, hn]
    · simp [passwordErrsOf, jsFalsyStr, passwordMissingOrShort, hn, hs]

theorem roleErrsOf_nil_iff (i : CreateUserInput) :
    roleErrsOf i = [] ↔ ¬ roleNotAllowed i := by
  unfold roleErrsOf roleNotAllowed List.contains
  by_cases hr : (i.role.getD "user") ∈ userRoles
  · rw [if_neg (by simp [List.elem_iff, hr])]
    simp [hr]
  · rw [if_pos (by simp [List.elem_iff, hr])]
    simp [hr]

theorem allErrsOf_nil_iff (i : CreateUserInput) :
    allErrsOf i = [] ↔
      ¬(nameTooShort i ∨ emailMissingOrInvalid i ∨ passwordMissingOrShort i ∨
        roleNotAllowed i) := by
  unfold allErrsOf
  rw [List.append_eq_nil, List.append_eq_nil, List.append_eq_nil]
  rw [nameErrsOf_nil_iff, emailErrsOf_nil_iff, passwordErrsOf_nil_iff, roleErrsOf_nil_iff]
  tauto

/-- C8: `createUser` throws a 422-shaped error with a nonempty errors
map, issuing no request, exactly when the trimmed name is shorter than
two characters (or absent), the email is missing or fails the email
pattern, the password is missing or shorter than eight characters, or
the role is not one of admin, editor, user; when every check passes it
sends the trimmed name and the lowercased trimmed email. -/
theorem c8_create_user_validation (i : CreateUserInput) :
    ((∃ errs, createUser i = .reject 422 errs ∧ errs ≠ []) ↔
      (nameTooShort i ∨ emailMissingOrInvalid i ∨ passwordMissingOrShort i ∨
        roleNotAllowed i)) ∧
    (∀ st errs, createUser i = .reject st errs → st = 422 ∧ errs ≠ []) ∧
    (¬(nameTooShort i ∨ emailMissingOrInvalid i ∨ passwordMissingOrShort i ∨
        roleNotAllowed i) →
      createUser i = .send ⟨jsTrim (i.name.getD ""), jsTrim (jsToLower (i.email.getD "")),
                            i.password.getD "", i.role.getD "user", i.status.getD "active"⟩) := by
  by_cases he : allErrsOf i = []
  · have hcond := (allErrsOf_nil_iff i).mp he
    refine ⟨?_, ?_, fun _ => ?_⟩
    · constructor
      · rintro ⟨errs, herrs, -⟩
        rw [createUser, if_pos (by simp [he])] at herrs
        cases herrs
      · intro h; exact absurd h hcond
    · intro st errs herrs
      rw [createUser, if_pos (by simp [he])] at herrs
      cases herrs
    · rw [createUser, if_pos (by simp [he])]
  · have hcond : (nameTooShort i ∨ emailMissingOrInvalid i ∨ passwordMissingOrShort i ∨
        roleNotAllowed i) := by
      by_contra hc
      exact he ((allErrsOf_nil_iff i).mpr hc)
    have hrej : createUser i = .reject 422 (allErrsOf i) := by
      rw [createUser, if_neg (by simpa using he)]
    refine ⟨?_, ?_, fun h => absurd hcond h⟩
    · exact ⟨fun _ => hcond, fun _ => ⟨allErrsOf i, hrej, he⟩⟩
    · intro st errs herrs
      rw [hrej] at herrs
      cases herrs
      exact ⟨rfl, he⟩

/-- C8 witness: a valid input is sent with the trimmed name and
lowercased trimmed email; no 422 error is thrown. -/
theorem c8_witness :
    createUser ⟨some " Jo ", some "A@B.co", some "password1", none, none⟩ =
      .send ⟨"Jo", "a@b.co", "password1", "user", "active"⟩ := by
  have h := (c8_create_user_validation
    ⟨some " Jo ", some "A@B.co", some "password1", none, none⟩).2.2
    ((allErrsOf_nil_iff _).mp (by decide))
  rw [h]
  decide

/-! ## Round-trip of the JSON printer and parser -/

theorem digitCharOf_isDigit (n : Nat) (h : n < 10) : (digitCharOf n).isDigit = true := by
  interval_cases n <;> decide

theorem digitCharOf_toNat (n : Nat) (h : n < 10) : (digitCharOf n).toNat = 48 + n := by
  interval_cases n <;> decide

theorem natToDigits_all_digits (n : Nat) : ∀ c ∈ natToDigits n, c.isDigit = true := by
  induction n using Nat.strong_induction_on with
  | _ n ih =>
    rw [natToDigits.eq_def]
    split
    · rename_i h
      intro c hc
      simp only [List.mem_singleton] at hc
      subst hc
      exact digitCharOf_isDigit n h
    · rename_i h
      intro c hc
      rcases List.mem_append.mp hc with h1 | h2
      · exact ih (n / 10) (Nat.div_lt_self (by omega) (by omega)) c h1
      · simp only [List.mem_singleton] at h2
        subst h2
        exact digitCharOf_isDigit (n % 10) (Nat.mod_lt _ (by omega))

theorem natToDigits_ne_nil (n : Nat) : natToDigits n ≠ [] := by
  rw [natToDigits.eq_def]
  split
  · simp
  · simp

theorem isDigit_ne (c d : Char) (h : c.isDigit = true) (hd : d.isDigit = false) : c ≠ d := by
  intro he
  rw [he, hd] at h
  cases h

theorem digitsVal_append_digit (l : List Char) (c : Char) :
    digitsVal (l ++ [c]) = digitsVal l * 10 + (c.toNat - 48) := by
  unfold digitsVal
  rw [List.foldl_append]
  rfl

theorem digitsVal_natToDigits (n : Nat) : digitsVal (natToDigits n) = n := by
  induction n using Nat.strong_induction_on with
  | _ n ih =>
    rw [natToDigits.eq_def]
    split
    · rename_i h
      show digitsVal [digitCharOf n] = n
      unfold digitsVal
      simp [digitCharOf_toNat n h]
    · rename_i h
      rw [digitsVal_append_digit]
      rw [ih (n / 10) (Nat.div_lt_self (by omega) (by omega))]
      rw [digitCharOf_toNat (n % 10) (Nat.mod_lt _ (by omega))]
      omega

theorem takeWhile_append_all (p : Char → Bool) (l r : List Char)
    (hl : ∀ c ∈ l, p c = true) (hr : ∀ c, r.head? = some c → p c = false) :
    (l ++ r).takeWhile p = l := by
  induction l with
  | nil =>
    cases r with
    | nil => rfl
    | cons c t => simp [List.takeWhile_cons, hr c rfl]
  | cons c t ih =>
    simp only [List.cons_append, List.takeWhile_cons, hl c (by simp)]
    rw [ih (fun x hx => hl x (by simp [hx]))]
    simp

theorem dropWhile_append_all (p : Char → Bool) (l r : List Char)
    (hl : ∀ c ∈ l, p c = true) (hr : ∀ c, r.head? = some c → p c = false) :
    (l ++ r).dropWhile p = r := by
  induction l with
  | nil =>
    cases r with
    | nil => rfl
    | cons c t => simp [List.dropWhile_cons, hr c rfl]
  | cons c t ih =>
    simp only [List.cons_append, List.dropWhile_cons, hl c (by simp)]
    exact ih (fun x hx => hl x (by simp [hx]))

theorem span_digits_append (l r : List Char) (hl : ∀ c ∈ l, c.isDigit = true)
    (hr : ∀ c, r.head? = some c → c.isDigit = false) :
    (l ++ r).span Char.isDigit = (l, r) := by
  rw [List.span_eq_take_drop]
  rw [takeWhile_append_all Char.isDigit l r hl hr,
    dropWhile_append_all Char.isDigit l r hl hr]

theorem intToChars_ne_nil (n : Int) : intToChars n ≠ [] := by
  unfold intToChars
  split
  · simp
  · exact natToDigits_ne_nil _

theorem pInt_intToChars (n : Int) (rest : List Char)
    (hrest : ∀ c, rest.head? = some c → c.isDigit = false) :
    pInt (intToChars n ++ rest) = some (n, rest) := by
  unfold intToChars
  by_cases hn : n < 0
  · rw [if_pos hn]
    show pInt ('-' :: (natToDigits n.natAbs ++ rest)) = some (n, rest)
    simp only [pInt, if_true]
    rw [span_digits_append _ _ (natToDigits_all_digits _) hrest]
    rw [if_neg (by simpa using natToDigits_ne_nil n.natAbs)]
    rw [digitsVal_natToDigits]
    congr 1
    congr 1
    omega
  · rw [if_neg hn]
    cases hds : natToDigits n.natAbs with
    | nil => exact absurd hds (natToDigits_ne_nil _)
    | cons c t =>
      have hcd : c.isDigit = true :=
        natToDigits_all_digits n.natAbs c (by rw [hds]; simp)
      show pInt ((c :: t) ++ rest) = some (n, rest)
      simp only [List.cons_append, pInt]
      rw [if_neg (isDigit_ne c '-' hcd (by decide))]
      rw [show c :: (t ++ rest) = (c :: t) ++ rest from rfl, ← hds]
      rw [span_digits_append _ _ (natToDigits_all_digits _) hrest]
      rw [if_neg (by simpa using natToDigits_ne_nil n.natAbs)]
      rw [digitsVal_natToDigits]
      congr 1
      congr 1
      omega

theorem hexVal_hexCharOfNat (n : Nat) (h : n < 16) : hexVal (hexCharOfNat n) = some n := by
  interval_cases n <;> decide

theorem pStrBody_escAll (s rest : List Char) :
    pStrBody (escAll s ++ ('\"' :: rest)) = some (s, rest) := by
  induction s with
  | nil =>
    show pStrBody ('\"' :: rest) = some ([], rest)
    rw [pStrBody.eq_def]
    simp
  | cons c cs ih =>
    show pStrBody ((escChar c ++ escAll cs) ++ ('\"' :: rest)) = some (c :: cs, rest)
    rw [List.append_assoc]
    unfold escChar
    by_cases h1 : c = '\"'
    · subst h1
      rw [if_pos rfl]
      show pStrBody ('\\' :: '\"' :: (escAll cs ++ ('\"' :: rest))) = _
      rw [pStrBody.eq_def]
      simp [ih]
    · rw [if_neg h1]
      by_cases h2 : c = '\\'
      · subst h2
        rw [if_pos rfl]
        show pStrBody ('\\' :: '\\' :: (escAll cs ++ ('\"' :: rest))) = _
        rw [pStrBody.eq_def]
        simp [ih]
      · rw [if_neg h2]
        by_cases h3 : c.toNat < 32
        · rw [if_pos h3]
          show pStrBody ('\\' :: 'u' :: '0' :: '0' :: hexCharOfNat (c.toNat / 16) ::
            hexCharOfNat (c.toNat % 16) :: (escAll cs ++ ('\"' :: rest))) = _
          rw [pStrBody.eq_def]
          simp only [List.cons.injEq, reduceIte]
          rw [hexVal_hexCharOfNat (c.toNat / 16) (by omega),
            hexVal_hexCharOfNat (c.toNat % 16) (by omega)]
          have h0 : hexVal '0' = some 0 := by decide
          rw [h0]
          simp [ih]
          rw [show c.toNat / 16 * 16 + c.toNat % 16 = c.toNat from by omega]
          simp [Char.ofNat_toNat]
        · rw [if_neg h3]
          show pStrBody (c :: (escAll cs ++ ('\"' :: rest))) = _
          rw [pStrBody.eq_def]
          simp [h1, h2, h3, ih]

theorem jsonToChars_null : jsonToChars .null = ['n', 'u', 'l', 'l'] := by
  simp [jsonToChars, nullChars]

theorem jsonToChars_true : jsonToChars (.bool true) = ['t', 'r', 'u', 'e'] := by
  simp [jsonToChars, trueChars]

theorem jsonToChars_false : jsonToChars (.bool false) = ['f', 'a', 'l', 's', 'e'] := by
  simp [jsonToChars, falseChars]

theorem jsonToChars_num (n : Int) : jsonToChars (.num n) = intToChars n := by
  simp [jsonToChars]

theorem jsonToChars_str (s : String) : jsonToChars (.str s) = strLitChars s.data := by
  simp [jsonToChars]

theorem jsonToChars_arr (xs : List Json) :
    jsonToChars (.arr xs) = '[' :: (elemsToChars xs ++ [']']) := by
  simp [jsonToChars]

theorem jsonToChars_obj (fs : List (String × Json)) :
    jsonToChars (.obj fs) = lbraceChar :: (fieldsToChars fs ++ [rbraceChar]) := by
  simp [jsonToChars]

theorem elemsToChars_nil : elemsToChars [] = [] := by
  simp [elemsToChars]

theorem fieldsToChars_nil : fieldsToChars [] = [] := by
  simp [fieldsToChars]

theorem elemsToChars_single (x : Json) : elemsToChars [x] = jsonToChars x := by
  simp [elemsToChars]

theorem elemsToChars_cons2 (x y : Json) (t : List Json) :
    elemsToChars (x :: y :: t) = jsonToChars x ++ ',' :: elemsToChars (y :: t) := by
  simp [elemsToChars]

theorem fieldsToChars_single (k : String) (v : Json) :
    fieldsToChars [(k, v)] = strLitChars k.data ++ ':' :: jsonToChars v := by
  simp [fieldsToChars]

theorem fieldsToChars_cons2 (k : String) (v : Json) (y : String × Json)
    (t : List (String × Json)) :
    fieldsToChars ((k, v) :: y :: t) =
      strLitChars k.data ++ ':' :: jsonToChars v ++ ',' :: fieldsToChars (y :: t) := by
  simp [fieldsToChars]

theorem needFuel_null : needFuel .null = 1 := by simp [needFuel]

theorem needFuel_bool (b : Bool) : needFuel (.bool b) = 1 := by simp [needFuel]

theorem needFuel_num (n : Int) : needFuel (.num n) = 1 := by simp [needFuel]

theorem needFuel_str (s : String) : needFuel (.str s) = 1 := by simp [needFuel]

theorem needFuel_arr (xs : List Json) : needFuel (.arr xs) = 1 + needFuelElems xs := by
  simp [needFuel]

theorem needFuel_obj (fs : List (String × Json)) :
    needFuel (.obj fs) = 1 + needFuelFields fs := by
  simp [needFuel]

theorem needFuelElems_single (x : Json) : needFuelElems [x] = 1 + needFuel x := by
  simp [needFuelElems]

theorem needFuelElems_cons2 (x y : Json) (t : List Json) :
    needFuelElems (x :: y :: t) = 1 + max (needFuel x) (needFuelElems (y :: t)) := by
  simp [needFuelElems]

theorem needFuelFields_single (k : String) (v : Json) :
    needFuelFields [(k, v)] = 1 + needFuel v := by
  simp [needFuelFields]

theorem needFuelFields_cons2 (k : String) (v : Json) (y : String × Json)
    (t : List (String × Json)) :
    needFuelFields ((k, v) :: y :: t) =
      1 + max (needFuel v) (needFuelFields (y :: t)) := by
  simp [needFuelFields]

theorem needFuel_pos (v : Json) : 1 ≤ needFuel v := by
  cases v <;>
    simp [needFuel_null, needFuel_bool, needFuel_num, needFuel_str, needFuel_arr,
      needFuel_obj]

theorem jsonToChars_head (v : Json) :
    ∃ c t, jsonToChars v = c :: t ∧
      (c = 'n' ∨ c = 't' ∨ c = 'f' ∨ c = '\"' ∨ c = '[' ∨ c = lbraceChar ∨
       c = '-' ∨ c.isDigit = true) := by
  cases v with
  | null => exact ⟨'n', _, jsonToChars_null, by tauto⟩
  | bool b =>
    cases b
    · exact ⟨'f', _, jsonToChars_false, by tauto⟩
    · exact ⟨'t', _, jsonToChars_true, by tauto⟩
  | num n =>
    rw [jsonToChars_num]
    unfold intToChars
    by_cases hn : n < 0
    · rw [if_pos hn]
      exact ⟨'-', _, rfl, by tauto⟩
    · rw [if_neg hn]
      cases hds : natToDigits n.natAbs with
      | nil => exact absurd hds (natToDigits_ne_nil _)
      | cons c t =>
        refine ⟨c, t, rfl, Or.inr (Or.inr (Or.inr (Or.inr (Or.inr (Or.inr (Or.inr ?_))))))⟩
        exact natToDigits_all_digits n.natAbs c (by rw [hds]; simp)
  | str s => exact ⟨'\"', _, jsonToChars_str s, by tauto⟩
  | arr xs => exact ⟨'[', _, jsonToChars_arr xs, by tauto⟩
  | obj fs => exact ⟨lbraceChar, _, jsonToChars_obj fs, by tauto⟩

theorem head_valid_ne_rbracket (c : Char)
    (h : c = 'n' ∨ c = 't' ∨ c = 'f' ∨ c = '\"' ∨ c = '[' ∨ c = lbraceChar ∨
      c = '-' ∨ c.isDigit = true) : c ≠ ']' := by
  rcases h with rfl | rfl | rfl | rfl | rfl | rfl | rfl | hd
  · decide
  · decide
  · decide
  · decide
  · decide
  · decide
  · decide
  · exact isDigit_ne c ']' hd (by decide)

theorem elemsToChars_cons_ex (x : Json) (xs : List Json) :
    ∃ L, elemsToChars (x :: xs) = jsonToChars x ++ L := by
  cases xs with
  | nil => exact ⟨[], by rw [elemsToChars_single, List.append_nil]⟩
  | cons y t => exact ⟨',' :: elemsToChars (y :: t), elemsToChars_cons2 x y t⟩

theorem head_cons_not_digit (d : Char) (X : List Char) (hd : d.isDigit = false) :
    ∀ c, (d :: X).head? = some c → c.isDigit = false := by
  intro c hc
  rw [List.head?_cons] at hc
  cases hc
  exact hd

set_option maxHeartbeats 1600000

mutual

theorem pVal_print (v : Json) (f : Nat) (rest : List Char) (hf : needFuel v ≤ f)
    (hrest : ∀ c, rest.head? = some c → c.isDigit = false) :
    pVal f (jsonToChars v ++ rest) = some (v, rest) := by
  obtain ⟨f', rfl⟩ : ∃ f', f = f' + 1 :=
    ⟨f - 1, by have := needFuel_pos v; omega⟩
  cases v with
  | null =>
    rw [jsonToChars_null]
    rw [pVal.eq_def]
    simp
  | bool b =>
    cases b
    · rw [jsonToChars_false, pVal.eq_def]
      simp
    · rw [jsonToChars_true, pVal.eq_def]
      simp
  | num n =>
    rw [jsonToChars_num]
    have hip := pInt_intToChars n rest hrest
    unfold intToChars at hip ⊢
    by_cases hn : n < 0
    · rw [if_pos hn] at hip ⊢
      show pVal (f' + 1) ('-' :: (natToDigits n.natAbs ++ rest)) = _
      rw [pVal.eq_def]
      simp only [List.cons_append] at hip
      simp [hip, lbraceChar]
    · rw [if_neg hn] at hip ⊢
      cases hds : natToDigits n.natAbs with
      | nil => exact absurd hds (natToDigits_ne_nil _)
      | cons c t =>
        rw [hds] at hip
        have hcd : c.isDigit = true :=
          natToDigits_all_digits n.natAbs c (by rw [hds]; simp)
        show pVal (f' + 1) ((c :: t) ++ rest) = _
        rw [List.cons_append, pVal.eq_def]
        simp only []
        rw [if_neg (isDigit_ne c 'n' hcd (by decide)),
          if_neg (isDigit_ne c 't' hcd (by decide)),
          if_neg (isDigit_ne c 'f' hcd (by decide)),
          if_neg (isDigit_ne c '\"' hcd (by decide)),
          if_neg (isDigit_ne c '[' hcd (by decide)),
          if_neg (isDigit_ne c lbraceChar hcd (by decide)),
          if_pos (by simp [hcd])]
        rw [← List.cons_append, hip]
        simp
  | str s =>
    rw [jsonToChars_str]
    show pVal (f' + 1) (('\"' :: (escAll s.data ++ ['\"'])) ++ rest) = _
    rw [List.cons_append, pVal.eq_def]
    simp only [List.append_assoc, List.singleton_append]
    simp [pStrBody_escAll s.data rest]
  | arr xs =>
    rw [jsonToChars_arr]
    cases xs with
    | nil =>
      rw [pVal.eq_def]
      simp [elemsToChars_nil]
    | cons x t =>
      obtain ⟨L, hL⟩ := elemsToChars_cons_ex x t
      obtain ⟨ch, ct, hct, hset⟩ := jsonToChars_head x
      have hdecomp : elemsToChars (x :: t) ++ (']' :: rest) =
          ch :: (ct ++ (L ++ (']' :: rest))) := by
        rw [hL, hct]
        simp [List.append_assoc]
      show pVal (f' + 1) (('[' :: (elemsToChars (x :: t) ++ [']'])) ++ rest) = _
      rw [List.cons_append, List.append_assoc, List.singleton_append, pVal.eq_def]
      rw [hdecomp]
      simp only [List.cons.injEq, reduceIte]
      rw [if_neg (head_valid_ne_rbracket ch hset)]
      rw [← hdecomp]
      rw [pElems_print (x :: t) f' rest (by simp) (by
        rw [needFuel_arr] at hf
        omega)]
      simp
  | obj fs =>
    rw [jsonToChars_obj]
    cases fs with
    | nil =>
      rw [pVal.eq_def]
      simp [fieldsToChars_nil, lbraceChar, rbraceChar]
    | cons kv t =>
      obtain ⟨k, v⟩ := kv
      have hdecomp : ∃ L, fieldsToChars ((k, v) :: t) ++ (rbraceChar :: rest) =
          '\"' :: ((escAll k.data ++ ['\"']) ++ L) := by
        cases t with
        | nil =>
          refine ⟨':' :: (jsonToChars v ++ (rbraceChar :: rest)), ?_⟩
          rw [fieldsToChars_single]
          simp [strLitChars, List.append_assoc]
        | cons y t2 =>
          refine ⟨':' :: (jsonToChars v ++ (',' :: (fieldsToChars (y :: t2) ++
            (rbraceChar :: rest)))), ?_⟩
          rw [fieldsToChars_cons2]
          simp [strLitChars, List.append_assoc]
      obtain ⟨L, hL⟩ := hdecomp
      show pVal (f' + 1) ((lbraceChar :: (fieldsToChars ((k, v) :: t) ++ [rbraceChar]))
        ++ rest) = _
      rw [List.cons_append, List.append_assoc, List.singleton_append, pVal.eq_def]
      rw [hL]
      simp only [List.cons.injEq, reduceIte]
      rw [if_neg (by decide : ¬ ('\"' = rbraceChar))]
      rw [← hL]
      rw [pFields_print ((k, v) :: t) f' rest (by simp) (by
        rw [needFuel_obj] at hf
        omega)]
      simp [lbraceChar]

theorem pElems_print (xs : List Json) (f : Nat) (rest : List Char)
    (hxs : xs ≠ []) (hf : needFuelElems xs ≤ f) :
    pElems f (elemsToChars xs ++ (']' :: rest)) = some (xs, rest) := by
  cases xs with
  | nil => exact absurd rfl hxs
  | cons x t =>
    obtain ⟨f', rfl⟩ : ∃ f', f = f' + 1 := by
      refine ⟨f - 1, ?_⟩
      cases t with
      | nil => rw [needFuelElems_single] at hf; omega
      | cons y t2 => rw [needFuelElems_cons2] at hf; omega
    cases t with
    | nil =>
      rw [needFuelElems_single] at hf
      rw [elemsToChars_single, pElems.eq_def]
      simp only []
      rw [pVal_print x f' (']' :: rest) (by omega)
        (head_cons_not_digit ']' rest (by decide))]
      simp
    | cons y t2 =>
      rw [needFuelElems_cons2] at hf
      have hmax := Nat.max_le.mp (by omega : max (needFuel x) (needFuelElems (y :: t2)) ≤ f')
      rw [elemsToChars_cons2, List.append_assoc, List.cons_append, pElems.eq_def]
      simp only []
      rw [pVal_print x f' (',' :: (elemsToChars (y :: t2) ++ (']' :: rest))) hmax.1
        (head_cons_not_digit ',' _ (by decide))]
      simp only [List.cons.injEq, reduceIte]
      rw [pElems_print (y :: t2) f' rest (by simp) hmax.2]
      simp

theorem pFields_print (fs : List (String × Json)) (f : Nat) (rest : List Char)
    (hfs : fs ≠ []) (hf : needFuelFields fs ≤ f) :
    pFields f (fieldsToChars fs ++ (rbraceChar :: rest)) = some (fs, rest) := by
  cases fs with
  | nil => exact absurd rfl hfs
  | cons kv t =>
    obtain ⟨k, v⟩ := kv
    obtain ⟨f', rfl⟩ : ∃ f', f = f' + 1 := by
      refine ⟨f - 1, ?_⟩
      cases t with
      | nil => rw [needFuelFields_single] at hf; omega
      | cons y t2 => rw [needFuelFields_cons2] at hf; omega
    cases t with
    | nil =>
      rw [needFuelFields_single] at hf
      rw [fieldsToChars_single]
      have hshape : (strLitChars k.data ++ ':' :: jsonToChars v) ++ (rbraceChar :: rest) =
          '\"' :: (escAll k.data ++ ('\"' :: (':' :: (jsonToChars v ++
            (rbraceChar :: rest))))) := by
        simp [strLitChars, List.append_assoc]
      rw [hshape, pFields.eq_def]
      simp only []
      rw [pStrBody_escAll k.data (':' :: (jsonToChars v ++ (rbraceChar :: rest)))]
      simp only []
      rw [pVal_print v f' (rbraceChar :: rest) (by omega)
        (head_cons_not_digit rbraceChar rest (by decide))]
      simp [rbraceChar]
    | cons y t2 =>
      rw [needFuelFields_cons2] at hf
      have hmax := Nat.max_le.mp
        (by omega : max (needFuel v) (needFuelFields (y :: t2)) ≤ f')
      rw [fieldsToChars_cons2]
      have hshape : (strLitChars k.data ++ ':' :: jsonToChars v ++ ',' ::
          fieldsToChars (y :: t2)) ++ (rbraceChar :: rest) =
          '\"' :: (escAll k.data ++ ('\"' :: (':' :: (jsonToChars v ++ (',' ::
            (fieldsToChars (y :: t2) ++ (rbraceChar :: rest))))))) := by
        simp [strLitChars, List.append_assoc]
      rw [hshape, pFields.eq_def]
      simp only []
      rw [pStrBody_escAll k.data (':' :: (jsonToChars v ++ (',' ::
        (fieldsToChars (y :: t2) ++ (rbraceChar :: rest)))))]
      simp only []
      rw [pVal_print v f' (',' :: (fieldsToChars (y :: t2) ++ (rbraceChar :: rest)))
        hmax.1 (head_cons_not_digit ',' _ (by decide))]
      simp only [List.cons.injEq, reduceIte]
      rw [pFields_print (y :: t2) f' rest (by simp) hmax.2]
      simp

end

set_option maxHeartbeats 200000

theorem needFuelElems_nil : needFuelElems [] = 1 := by simp [needFuelElems]

theorem needFuelFields_nil : needFuelFields [] = 1 := by simp [needFuelFields]

mutual

theorem needFuel_le_len (v : Json) : needFuel v ≤ (jsonToChars v).length := by
  cases v with
  | null => rw [needFuel_null, jsonToChars_null]; simp
  | bool b =>
    cases b
    · rw [needFuel_bool, jsonToChars_false]; simp
    · rw [needFuel_bool, jsonToChars_true]; simp
  | num n =>
    rw [needFuel_num, jsonToChars_num]
    exact List.length_pos.mpr (intToChars_ne_nil n)
  | str s =>
    rw [needFuel_str, jsonToChars_str]
    simp [strLitChars]
  | arr xs =>
    rw [needFuel_arr, jsonToChars_arr]
    have h := needFuelElems_le_len xs
    simp only [List.length_cons, List.length_append, List.length_singleton]
    omega
  | obj fs =>
    rw [needFuel_obj, jsonToChars_obj]
    have h := needFuelFields_le_len fs
    simp only [List.length_cons, List.length_append, List.length_singleton]
    omega

theorem needFuelElems_le_len (xs : List Json) :
    needFuelElems xs ≤ (elemsToChars xs).length + 1 := by
  cases xs with
  | nil => rw [needFuelElems_nil, elemsToChars_nil]; simp
  | cons x t =>
    cases t with
    | nil =>
      rw [needFuelElems_single, elemsToChars_single]
      have h := needFuel_le_len x
      omega
    | cons y t2 =>
      rw [needFuelElems_cons2, elemsToChars_cons2]
      have h1 := needFuel_le_len x
      have h2 := needFuelElems_le_len (y :: t2)
      have hm : max (needFuel x) (needFuelElems (y :: t2)) ≤
          (jsonToChars x).length + (elemsToChars (y :: t2)).length + 1 :=
        Nat.max_le.mpr ⟨by omega, by omega⟩
      simp only [List.length_append, List.length_cons]
      omega

theorem needFuelFields_le_len (fs : List (String × Json)) :
    needFuelFields fs ≤ (fieldsToChars fs).length + 1 := by
  cases fs with
  | nil => rw [needFuelFields_nil, fieldsToChars_nil]; simp
  | cons kv t =>
    obtain ⟨k, v⟩ := kv
    cases t with
    | nil =>
      rw [needFuelFields_single, fieldsToChars_single]
      have h := needFuel_le_len v
      simp only [List.length_append, List.length_cons]
      omega
    | cons y t2 =>
      rw [needFuelFields_cons2, fieldsToChars_cons2]
      have h1 := needFuel_le_len v
      have h2 := needFuelFields_le_len (y :: t2)
      have hm : max (needFuel v) (needFuelFields (y :: t2)) ≤
          (jsonToChars v).length + (fieldsToChars (y :: t2)).length + 1 :=
        Nat.max_le.mpr ⟨by omega, by omega⟩
      simp only [List.length_append, List.length_cons]
      omega

end

theorem jsonToChars_ne_nil (v : Json) : jsonToChars v ≠ [] := by
  obtain ⟨c, t, hct, -⟩ := jsonToChars_head v
  rw [hct]
  simp

theorem jsonStringify_ne_empty (v : Json) : jsonStringify v ≠ "" := by
  unfold jsonStringify
  intro h
  have hd := congrArg String.data h
  exact jsonToChars_ne_nil v hd

theorem jsonParse_stringify (v : Json) : jsonParse (jsonStringify v) = some v := by
  unfold jsonParse jsonStringify
  have hb : needFuel v ≤ (String.mk (jsonToChars v)).length + 1 := by
    have := needFuel_le_len v
    show needFuel v ≤ (jsonToChars v).length + 1
    omega
  have hp := pVal_print v ((String.mk (jsonToChars v)).length + 1) [] hb
    (by intro c hc; simp at hc)
  rw [List.append_nil] at hp
  show (match pVal ((String.mk (jsonToChars v)).length + 1) (jsonToChars v) with
    | some (w, []) => some w
    | _ => none) = some v
  rw [hp]

/-- C10: the storage wrapper is total and round-trips JSON values:
`storage.get` after `storage.set` returns the stored value for every
JSON value, and returns null — never throwing — for a missing key, for
a removed key, and for a raw entry that fails to parse as JSON. -/
theorem c10_storage_roundtrip :
    (∀ (st : LocalStore) (k : String) (v : Json), storageGet (storageSet st k v) k = v) ∧
    (∀ (st : LocalStore) (k : String), st k = none → storageGet st k = .null) ∧
    (∀ (st : LocalStore) (k : String), storageGet (storageRemove st k) k = .null) ∧
    (∀ (st : LocalStore) (k s : String), jsonParse s = none →
      storageGet (rawSetItem st k s) k = .null) := by
  refine ⟨?_, ?_, ?_, ?_⟩
  · intro st k v
    show storageGet (rawSetItem st k (jsonStringify v)) k = v
    simp [storageGet, rawSetItem, jsonStringify_ne_empty v, jsonParse_stringify]
  · intro st k h
    unfold storageGet
    rw [h]
  · intro st k
    simp [storageGet, storageRemove, rawRemoveItem]
  · intro st k s h
    by_cases hs : s = ""
    · subst hs
      simp [storageGet, rawSetItem]
    · simp [storageGet, rawSetItem, hs, h]

/-- C10 witness: a concrete object value survives set-then-get, a
missing key, a removed key and an unparseable raw entry all read back
as null. -/
theorem c10_witness :
    storageGet (storageSet emptyStore "insbu_user_preferences"
      (Json.obj [("density", Json.str "compact")])) "insbu_user_preferences" =
      Json.obj [("density", Json.str "compact")] ∧
    storageGet emptyStore "missing" = Json.null ∧
    storageGet (storageRemove (storageSet emptyStore "k" Json.null) "k") "k" = Json.null ∧
    storageGet (rawSetItem emptyStore "bad" "not json") "bad" = Json.null :=
  ⟨c10_storage_roundtrip.1 _ _ _,
   c10_storage_roundtrip.2.1 _ _ rfl,
   c10_storage_roundtrip.2.2.1 _ _,
   c10_storage_roundtrip.2.2.2 _ _ _ (by rfl)⟩

end Insbu
